import Mathlib

/-!
Shallow embedding of the `rex` push-based stream library (src/index.ts).

A stream delivers notifications to an observer through two callbacks,
`next(v)` and `complete()`.  Each operator constructor in src/index.ts
wires a derived observer to its upstream stream; here every operator is
embedded as a function on notification traces (the sequence of callback
invocations the upstream performs), translated statement by statement
from the body of the corresponding source function.
-/

namespace Rex

/-- A downstream notification: `next v` or `complete`. -/
inductive Ev (α : Type) where
  | next (v : α) : Ev α
  | complete : Ev α
deriving DecidableEq, Repr

/-- Number of `complete` notifications in a trace. -/
def completeCount {α : Type} : List (Ev α) → Nat
  | [] => 0
  | Ev.complete :: r => completeCount r + 1
  | Ev.next _ :: r => completeCount r

/-- The derived observer installed by `_map fn` (src/index.ts 114-131):
`next: (data) => observer.next(fn(data))` and `complete: observer.complete`.
Applied pointwise to the upstream notification trace. -/
def mapRun {α β : Type} (fn : α → β) : List (Ev α) → List (Ev β)
  | [] => []
  | Ev.next v :: r => Ev.next (fn v) :: mapRun fn r
  | Ev.complete :: r => Ev.complete :: mapRun fn r

/-- The derived observer installed by `_filter fn` (src/index.ts 141-158):
`next: (data) => (fn(data) ? observer.next(data) : noOp())` and
`complete: observer.complete`. -/
def filterRun {α : Type} (fn : α → Bool) : List (Ev α) → List (Ev α)
  | [] => []
  | Ev.next v :: r => if fn v then Ev.next v :: filterRun fn r else filterRun fn r
  | Ev.complete :: r => Ev.complete :: filterRun fn r

theorem completeCount_append {α : Type} (l m : List (Ev α)) :
    completeCount (l ++ m) = completeCount l + completeCount m := by
  induction l with
  | nil => simp [completeCount]
  | cons e r ih =>
    cases e with
    | next v => simpa [completeCount] using ih
    | complete => simp [completeCount, ih]; omega

theorem completeCount_map_next {α : Type} (vs : List (Ev α)) :
    (∀ e ∈ vs, e ≠ Ev.complete) → completeCount vs = 0 := by
  intro h
  induction vs with
  | nil => rfl
  | cons e r ih =>
    cases e with
    | next v =>
      simp only [completeCount]
      exact ih fun e he => h e (List.mem_cons_of_mem _ he)
    | complete => exact absurd rfl (h Ev.complete (List.mem_cons_self _ _))

/-- C5: for a finite upstream sequence v1..vn followed by a single
`complete`, `map fn` delivers exactly `fn v1 .. fn vn` in order, then a
single `complete` after the last `next`. -/
theorem map_elementwise {α β : Type} (fn : α → β) (vs : List α) :
    mapRun fn (vs.map Ev.next ++ [Ev.complete])
      = vs.map (fun v => Ev.next (fn v)) ++ [Ev.complete]
    ∧ completeCount (mapRun fn (vs.map Ev.next ++ [Ev.complete])) = 1 := by
  have heq : mapRun fn (vs.map Ev.next ++ [Ev.complete])
      = vs.map (fun v => Ev.next (fn v)) ++ [Ev.complete] := by
    induction vs with
    | nil => rfl
    | cons v r ih => simpa [mapRun] using ih
  refine ⟨heq, ?_⟩
  rw [heq, completeCount_append]
  have h0 : completeCount (vs.map fun v => Ev.next (fn v)) = 0 := by
    apply completeCount_map_next
    intro e he
    rcases List.mem_map.mp he with ⟨v, _, rfl⟩
    simp
  simp [h0, completeCount]

/-- C6: for a finite upstream sequence followed by `complete`, `filter fn`
delivers exactly the subsequence of values satisfying `fn`, in order, and
forwards `complete` unchanged. -/
theorem filter_subsequence {α : Type} (fn : α → Bool) (vs : List α) :
    filterRun fn (vs.map Ev.next ++ [Ev.complete])
      = (vs.filter fn).map Ev.next ++ [Ev.complete] := by
  induction vs with
  | nil => rfl
  | cons v r ih =>
    by_cases h : fn v
    · simp [filterRun, h, List.filter_cons, ih]
    · simp only [Bool.not_eq_true] at h
      simp [filterRun, h, List.filter_cons, ih]

/-! `_withLatestFrom` (src/index.ts 202-252).  The operator keeps `dataA`,
`dataB` (uninitialized, i.e. `undefined`, until first observed — embedded
as `Option` with `none` for the uninitialized default) and a shared
`shouldComplete` flag.  Both upstreams are subscribed; the interleaving of
their callbacks is one trace of `WEv` events. -/

/-- One upstream callback invocation seen by `_withLatestFrom`:
a `next` or `complete` from streamA or from streamB. -/
inductive WEv (α β : Type) where
  | aNext (v : α) : WEv α β
  | aComplete : WEv α β
  | bNext (v : β) : WEv α β
  | bComplete : WEv α β
deriving DecidableEq, Repr

/-- Closure state of `_withLatestFrom`: `dataA`, `dataB` (none while
uninitialized) and the shared `shouldComplete` flag. -/
structure WState (α β : Type) where
  dataA : Option α
  dataB : Option β
  shouldComplete : Bool
deriving DecidableEq, Repr

/-- State before any upstream callback has fired. -/
def wInit (α β : Type) : WState α β :=
  { dataA := none, dataB := none, shouldComplete := false }

/-- One upstream callback of `_withLatestFrom`: on `next` from A, store
into `dataA` and emit `next [dataA, dataB]`; symmetrically for B; on
`complete` from either side, if `shouldComplete` is not yet set, set it
and return without propagating, otherwise call downstream `complete()`. -/
def wStep {α β : Type} (s : WState α β) :
    WEv α β → WState α β × List (Ev (Option α × Option β))
  | WEv.aNext v =>
      ({ s with dataA := some v }, [Ev.next (some v, s.dataB)])
  | WEv.bNext v =>
      ({ s with dataB := some v }, [Ev.next (s.dataA, some v)])
  | WEv.aComplete =>
      if s.shouldComplete then (s, [Ev.complete])
      else ({ s with shouldComplete := true }, [])
  | WEv.bComplete =>
      if s.shouldComplete then (s, [Ev.complete])
      else ({ s with shouldComplete := true }, [])

/-- Run `_withLatestFrom` over an interleaved upstream callback trace. -/
def wRun {α β : Type} (s : WState α β) :
    List (WEv α β) → List (Ev (Option α × Option β))
  | [] => []
  | e :: r => (wStep s e).2 ++ wRun (wStep s e).1 r

/-- Number of `complete` callbacks (from either side) in an upstream trace. -/
def wCompleteCount {α β : Type} : List (WEv α β) → Nat
  | [] => 0
  | WEv.aComplete :: r => wCompleteCount r + 1
  | WEv.bComplete :: r => wCompleteCount r + 1
  | WEv.aNext _ :: r => wCompleteCount r
  | WEv.bNext _ :: r => wCompleteCount r

/-- Number of `complete` callbacks from streamA in an upstream trace. -/
def aCompleteCount {α β : Type} : List (WEv α β) → Nat
  | [] => 0
  | WEv.aComplete :: r => aCompleteCount r + 1
  | _ :: r => aCompleteCount r

/-- Number of `complete` callbacks from streamB in an upstream trace. -/
def bCompleteCount {α β : Type} : List (WEv α β) → Nat
  | [] => 0
  | WEv.bComplete :: r => bCompleteCount r + 1
  | _ :: r => bCompleteCount r

theorem wCompleteCount_eq_add {α β : Type} (tr : List (WEv α β)) :
    wCompleteCount tr = aCompleteCount tr + bCompleteCount tr := by
  induction tr with
  | nil => rfl
  | cons e r ih =>
    cases e <;> simp [wCompleteCount, aCompleteCount, bCompleteCount, ih] <;> omega

/-- The downstream `complete` count of a `_withLatestFrom` run: the first
upstream completion is absorbed by the flag (when it starts unset), every
later one propagates. -/
theorem wRun_completeCount {α β : Type} (tr : List (WEv α β))
    (dA : Option α) (dB : Option β) (sc : Bool) :
    completeCount (wRun ⟨dA, dB, sc⟩ tr)
      = (if sc then wCompleteCount tr else wCompleteCount tr - 1) := by
  induction tr generalizing dA dB sc with
  | nil => cases sc <;> simp [wRun, completeCount, wCompleteCount]
  | cons e r ih =>
    cases e with
    | aNext v =>
      simp only [wRun, wStep, completeCount_append]
      simpa [completeCount, wCompleteCount] using ih (some v) dB sc
    | bNext v =>
      simp only [wRun, wStep, completeCount_append]
      simpa [completeCount, wCompleteCount] using ih dA (some v) sc
    | aComplete =>
      cases sc with
      | true =>
        simp only [wRun, wStep, if_true, completeCount_append]
        simp [completeCount, wCompleteCount, ih dA dB true]
        omega
      | false =>
        simp only [wRun, wStep, if_false, completeCount_append]
        simp [completeCount, wCompleteCount, ih dA dB true]
    | bComplete =>
      cases sc with
      | true =>
        simp only [wRun, wStep, if_true, completeCount_append]
        simp [completeCount, wCompleteCount, ih dA dB true]
        omega
      | false =>
        simp only [wRun, wStep, if_false, completeCount_append]
        simp [completeCount, wCompleteCount, ih dA dB true]

theorem aCompleteCount_pos_of_mem {α β : Type} {tr : List (WEv α β)}
    (h : WEv.aComplete ∈ tr) : 1 ≤ aCompleteCount tr := by
  induction tr with
  | nil => cases h
  | cons e r ih =>
    cases e with
    | aComplete => simp [aCompleteCount]
    | aNext v =>
      rcases List.mem_cons.mp h with h1 | h2
      · cases h1
      · simpa [aCompleteCount] using ih h2
    | bNext v =>
      rcases List.mem_cons.mp h with h1 | h2
      · cases h1
      · simpa [aCompleteCount] using ih h2
    | bComplete =>
      rcases List.mem_cons.mp h with h1 | h2
      · cases h1
      · simpa [aCompleteCount] using ih h2

theorem bCompleteCount_pos_of_mem {α β : Type} {tr : List (WEv α β)}
    (h : WEv.bComplete ∈ tr) : 1 ≤ bCompleteCount tr := by
  induction tr with
  | nil => cases h
  | cons e r ih =>
    cases e with
    | bComplete => simp [bCompleteCount]
    | aNext v =>
      rcases List.mem_cons.mp h with h1 | h2
      · cases h1
      · simpa [bCompleteCount] using ih h2
    | bNext v =>
      rcases List.mem_cons.mp h with h1 | h2
      · cases h1
      · simpa [bCompleteCount] using ih h2
    | aComplete =>
      rcases List.mem_cons.mp h with h1 | h2
      · cases h1
      · simpa [bCompleteCount] using ih h2

theorem aCompleteCount_zero_of_not_mem {α β : Type} {tr : List (WEv α β)}
    (h : WEv.aComplete ∉ tr) : aCompleteCount tr = 0 := by
  induction tr with
  | nil => rfl
  | cons e r ih =>
    have hr : WEv.aComplete ∉ r := fun hm => h (List.mem_cons_of_mem _ hm)
    cases e with
    | aComplete => exact absurd (List.mem_cons_self _ _) h
    | aNext v => simpa [aCompleteCount] using ih hr
    | bNext v => simpa [aCompleteCount] using ih hr
    | bComplete => simpa [aCompleteCount] using ih hr

theorem bCompleteCount_zero_of_not_mem {α β : Type} {tr : List (WEv α β)}
    (h : WEv.bComplete ∉ tr) : bCompleteCount tr = 0 := by
  induction tr with
  | nil => rfl
  | cons e r ih =>
    have hr : WEv.bComplete ∉ r := fun hm => h (List.mem_cons_of_mem _ hm)
    cases e with
    | bComplete => exact absurd (List.mem_cons_self _ _) h
    | aNext v => simpa [bCompleteCount] using ih hr
    | bNext v => simpa [bCompleteCount] using ih hr
    | aComplete => simpa [bCompleteCount] using ih hr

/-- C1: when each upstream delivers `complete` at most once, the
`_withLatestFrom` stream delivers `complete` downstream iff both
upstreams completed, and then exactly once: the first upstream completion
only sets the shared flag, the second triggers the single downstream
`complete`. -/
theorem withLatestFrom_completion {α β : Type} [DecidableEq α]
    [DecidableEq β] (tr : List (WEv α β))
    (hA : aCompleteCount tr ≤ 1) (hB : bCompleteCount tr ≤ 1) :
    completeCount (wRun (wInit α β) tr)
      = (if WEv.aComplete ∈ tr ∧ WEv.bComplete ∈ tr then 1 else 0) := by
  rw [wInit, wRun_completeCount, if_neg (by simp), wCompleteCount_eq_add]
  by_cases hmA : WEv.aComplete ∈ tr
  · by_cases hmB : WEv.bComplete ∈ tr
    · have h1 := aCompleteCount_pos_of_mem hmA
      have h2 := bCompleteCount_pos_of_mem hmB
      rw [if_pos ⟨hmA, hmB⟩]
      omega
    · have h2 := bCompleteCount_zero_of_not_mem hmB
      rw [if_neg (by tauto)]
      omega
  · have h1 := aCompleteCount_zero_of_not_mem hmA
    rw [if_neg (by tauto)]
    omega

/-- Witness for C1 at a concrete interleaving: streamA emits 1, streamB
emits 2, then A completes (absorbed) and B completes (propagated). -/
theorem withLatestFrom_completion_witness :
    completeCount (wRun (wInit Nat Nat)
        [WEv.aNext 1, WEv.bNext 2, WEv.aComplete, WEv.bComplete])
      = (if WEv.aComplete ∈ ([WEv.aNext 1, WEv.bNext 2, WEv.aComplete,
            WEv.bComplete] : List (WEv Nat Nat))
          ∧ WEv.bComplete ∈ ([WEv.aNext 1, WEv.bNext 2, WEv.aComplete,
            WEv.bComplete] : List (WEv Nat Nat)) then 1 else 0) :=
  withLatestFrom_completion
    [WEv.aNext 1, WEv.bNext 2, WEv.aComplete, WEv.bComplete]
    (by decide) (by decide)

/-- C4: a `next v` from streamA stores `v` as the latest A-side value and
immediately emits the tuple of latest values; symmetrically for streamB;
and if streamA emits before streamB ever has, the emitted tuple's
B-component is the uninitialized default (`none`). -/
theorem withLatestFrom_pairing {α β : Type} (s : WState α β) (a : α) (b : β)
    (rest : List (WEv α β)) :
    wStep s (WEv.aNext a)
      = ({ s with dataA := some a }, [Ev.next (some a, s.dataB)])
    ∧ wStep s (WEv.bNext b)
      = ({ s with dataB := some b }, [Ev.next (s.dataA, some b)])
    ∧ wRun (wInit α β) (WEv.aNext a :: rest)
      = Ev.next (some a, none)
          :: wRun ⟨some a, none, false⟩ rest := by
  refine ⟨rfl, rfl, ?_⟩
  simp [wRun, wStep, wInit]

/-! `debounceTime ms` (src/index.ts 166-194).  Upstream callbacks are
time-stamped; the closure keeps a single pending-timer slot `_timer`.
On `next data`: cancel any pending timer and schedule
`() => observer.next(data)` for `ms` later.  On `complete`: cancel any
pending timer (its queued value is discarded) and forward `complete`.
A pending timer scheduled for time `f` fires (delivering its value
downstream at time `f`) strictly before any upstream callback
time-stamped later than `f`, and fires after the input ends. -/

/-- A time-stamped upstream callback seen by `debounceTime`. -/
inductive DEv (α : Type) where
  | next (v : α) : DEv α
  | complete : DEv α
deriving DecidableEq, Repr

/-- Run `debounceTime ms` from a pending-timer state (`some (v, f)` means
`observer.next v` is scheduled for time `f`) over time-stamped upstream
callbacks, producing the time-stamped downstream notifications. -/
def dbRun {α : Type} (ms : Nat) :
    Option (α × Nat) → List (Nat × DEv α) → List (Nat × Ev α)
  | some (v, f), [] => [(f, Ev.next v)]
  | none, [] => []
  | pending, (t, e) :: r =>
      let fired : List (Nat × Ev α) :=
        match pending with
        | some (v, f) => if f < t then [(f, Ev.next v)] else []
        | none => []
      match e with
      | DEv.next v => fired ++ dbRun ms (some (v, t + ms)) r
      | DEv.complete => fired ++ (t, Ev.complete) :: dbRun ms none r

/-- Last element of a list, with a default for the empty list. -/
def lastD {α : Type} : List α → α → α
  | [], d => d
  | a :: l, _ => lastD l a

/-- Consecutive time stamps in a burst are each less than `ms` apart:
every arrival comes strictly less than `ms` after the previous one. -/
def tightGaps {α : Type} (ms : Nat) : List (Nat × α) → Prop
  | [] => True
  | [_] => True
  | p :: q :: r => q.1 < p.1 + ms ∧ tightGaps ms (q :: r)

def tightGapsDec {α : Type} (ms : Nat) :
    (l : List (Nat × α)) → Decidable (tightGaps ms l)
  | [] => isTrue trivial
  | [_] => isTrue trivial
  | p :: q :: r =>
      @instDecidableAnd (q.1 < p.1 + ms) (tightGaps ms (q :: r))
        inferInstance (tightGapsDec ms (q :: r))

instance {α : Type} (ms : Nat) (l : List (Nat × α)) :
    Decidable (tightGaps ms l) := tightGapsDec ms l

/-- Processing a burst whose gaps stay under `ms` from a timer pending at
`t + ms`: each arrival cancels the pending timer and re-schedules, so the
run reduces to running the suffix with the timer pending for the last
burst element. -/
theorem dbRun_burst_pending {α : Type} (ms : Nat) (l : List (Nat × α))
    (t : Nat) (v : α) (suffix : List (Nat × DEv α))
    (hchain : tightGaps ms ((t, v) :: l)) :
    dbRun ms (some (v, t + ms)) (l.map (fun p => (p.1, DEv.next p.2)) ++ suffix)
      = dbRun ms (some ((lastD l (t, v)).2, (lastD l (t, v)).1 + ms))
          suffix := by
  induction l generalizing t v with
  | nil => rfl
  | cons q l2 ih =>
    have hq : q.1 < t + ms := hchain.1
    have hrest : tightGaps ms (q :: l2) := hchain.2
    have hnofire : ¬ (t + ms < q.1) := by omega
    have hstep : dbRun ms (some (v, t + ms))
          ((q :: l2).map (fun p => (p.1, DEv.next p.2)) ++ suffix)
        = dbRun ms (some (q.2, q.1 + ms))
            (l2.map (fun p => (p.1, DEv.next p.2)) ++ suffix) := by
      simp [dbRun, hnofire]
    rw [hstep]
    have := ih q.1 q.2 hrest
    simpa [lastD] using this

/-- Burst half of C3: for a burst `(t, v) :: l` of values each arriving
less than `ms` after the previous, `debounceTime ms` delivers exactly one
downstream `next`, carrying the last value of the burst, `ms` after the
last arrival of the burst. -/
theorem debounce_burst {α : Type} (ms t : Nat) (v : α) (l : List (Nat × α))
    (hchain : tightGaps ms ((t, v) :: l)) :
    dbRun ms none (((t, v) :: l).map (fun p => (p.1, DEv.next p.2)))
      = [((lastD l (t, v)).1 + ms, Ev.next (lastD l (t, v)).2)] := by
  have h0 : dbRun ms none (((t, v) :: l).map (fun p => (p.1, DEv.next p.2)))
      = dbRun ms (some (v, t + ms)) (l.map (fun p => (p.1, DEv.next p.2)) ++ []) := by
    simp [dbRun]
  rw [h0, dbRun_burst_pending ms l t v [] hchain]
  rfl

/-- Completion half of C3: if upstream `complete` arrives at time `tc` while
the debounce timer for the burst's last value is still pending
(`tc` before the scheduled fire time), the pending value is never
delivered and `complete` is forwarded immediately at `tc`. -/
theorem debounce_complete_cancels {α : Type} (ms t tc : Nat) (v : α)
    (l : List (Nat × α))
    (hchain : tightGaps ms ((t, v) :: l))
    (hpending : tc < (lastD l (t, v)).1 + ms) :
    dbRun ms none (((t, v) :: l).map (fun p => (p.1, DEv.next p.2))
        ++ [(tc, DEv.complete)])
      = [(tc, Ev.complete)] := by
  have h0 : dbRun ms none (((t, v) :: l).map (fun p => (p.1, DEv.next p.2))
        ++ [(tc, DEv.complete)])
      = dbRun ms (some (v, t + ms))
          (l.map (fun p => (p.1, DEv.next p.2)) ++ [(tc, DEv.complete)]) := by
    simp [dbRun]
  rw [h0, dbRun_burst_pending ms l t v [(tc, DEv.complete)] hchain]
  have hnofire : ¬ ((lastD l (t, v)).1 + ms < tc) := by omega
  simp [dbRun, hnofire]

/-- C3: for a burst `(t, v) :: l` of values each arriving less than `ms`
after the previous, `debounceTime ms` delivers exactly one downstream
`next`, carrying the last value of the burst, `ms` after the last arrival
of the burst; and if instead an upstream `complete` arrives at a time
`tc` while the burst's timer is still pending, the pending value is never
delivered and `complete` is forwarded immediately at `tc`. -/
theorem debounceTime_burst_and_complete {α : Type} (ms t : Nat) (v : α)
    (l : List (Nat × α)) (hchain : tightGaps ms ((t, v) :: l)) :
    dbRun ms none (((t, v) :: l).map (fun p => (p.1, DEv.next p.2)))
      = [((lastD l (t, v)).1 + ms, Ev.next (lastD l (t, v)).2)]
    ∧ ∀ tc : Nat, tc < (lastD l (t, v)).1 + ms →
        dbRun ms none (((t, v) :: l).map (fun p => (p.1, DEv.next p.2))
            ++ [(tc, DEv.complete)])
          = [(tc, Ev.complete)] :=
  ⟨debounce_burst ms t v l hchain,
   fun tc htc => debounce_complete_cancels ms t tc v l hchain htc⟩

/-- Witness for C3: burst 7, 8 at times 0, 5 with `ms = 10` produces the
single notification `next 8` at time 15, and an upstream `complete` at
time 12 (before the pending fire time 15) yields only `complete` at 12. -/
theorem debounceTime_burst_and_complete_witness :
    dbRun 10 none ((([(0, 7), (5, 8)] : List (Nat × Nat)).map
          (fun p => (p.1, DEv.next p.2)))
        : List (Nat × DEv Nat))
      = [((lastD [(5, 8)] ((0 : Nat), (7 : Nat))).1 + 10,
          Ev.next (lastD [(5, 8)] ((0 : Nat), (7 : Nat))).2)]
    ∧ dbRun 10 none ((([(0, 7), (5, 8)] : List (Nat × Nat)).map
          (fun p => (p.1, DEv.next p.2)) ++ [(12, DEv.complete)])
        : List (Nat × DEv Nat))
      = [(12, Ev.complete)] :=
  ⟨(debounceTime_burst_and_complete 10 0 7 [(5, 8)] (by decide)).1,
   (debounceTime_burst_and_complete 10 0 7 [(5, 8)] (by decide)).2 12
     (by norm_num [lastD])⟩

/-! `Stream.fromInterval ms` (src/index.ts 90-105).  On subscribe the
source starts a repeating schedule with `_tick = 0`; each firing does
`_tick += 1; observer.next(_tick)`.  Its teardown does
`observer.complete()` then `clearInterval(_timer)`, after which the
schedule never fires again. -/

/-- Subscription state of `fromInterval`: the `_tick` counter and whether
the repeating schedule is still installed. -/
structure IState where
  tick : Nat
  active : Bool
deriving DecidableEq, Repr

/-- An occurrence acting on a live `fromInterval` subscription: the
repeating schedule firing, or the stream's `unsubscribe` being invoked. -/
inductive IAct where
  | fire : IAct
  | unsub : IAct
deriving DecidableEq, Repr

/-- One occurrence: a firing of a live schedule increments `_tick` and
calls `observer.next(_tick)`; a firing of a cleared schedule does nothing;
`unsubscribe` calls `observer.complete()` then `clearInterval(_timer)`. -/
def iStep (s : IState) : IAct → IState × List (Ev Nat)
  | IAct.fire =>
      if s.active then
        ({ tick := s.tick + 1, active := true }, [Ev.next (s.tick + 1)])
      else (s, [])
  | IAct.unsub => ({ tick := s.tick, active := false }, [Ev.complete])

/-- Notifications delivered over a sequence of occurrences. -/
def iRun (s : IState) : List IAct → List (Ev Nat)
  | [] => []
  | a :: r => (iStep s a).2 ++ iRun (iStep s a).1 r

/-- Final subscription state after a sequence of occurrences. -/
def iRunState (s : IState) : List IAct → IState
  | [] => s
  | a :: r => iRunState (iStep s a).1 r

theorem iRun_fires (k n : Nat) :
    iRun ⟨n, true⟩ (List.replicate k IAct.fire)
      = (List.range k).map (fun i => Ev.next (n + i + 1))
    ∧ iRunState ⟨n, true⟩ (List.replicate k IAct.fire) = ⟨n + k, true⟩ := by
  induction k generalizing n with
  | zero => exact ⟨rfl, rfl⟩
  | succ k2 ih =>
    constructor
    · rw [List.replicate_succ]
      have hstep : iStep ⟨n, true⟩ IAct.fire
          = (⟨n + 1, true⟩, [Ev.next (n + 1)]) := rfl
      simp only [iRun, hstep, (ih (n + 1)).1, List.range_succ_eq_map]
      simp [Function.comp]
      omega
    · rw [List.replicate_succ]
      have hstep : iStep ⟨n, true⟩ IAct.fire
          = (⟨n + 1, true⟩, [Ev.next (n + 1)]) := rfl
      simp only [iRunState, hstep, (ih (n + 1)).2]
      congr 1
      omega

theorem iRun_inactive (m n : Nat) :
    iRun ⟨n, false⟩ (List.replicate m IAct.fire) = []
    ∧ iRunState ⟨n, false⟩ (List.replicate m IAct.fire) = ⟨n, false⟩ := by
  induction m with
  | zero => exact ⟨rfl, rfl⟩
  | succ m2 ih =>
    have hstep : iStep ⟨n, false⟩ IAct.fire = (⟨n, false⟩, []) := rfl
    rw [List.replicate_succ]
    refine ⟨?_, ?_⟩
    · simp only [iRun, hstep, ih.1]
      rfl
    · simp only [iRunState, hstep, ih.2]

/-- C7: invoking a `fromInterval` stream's `unsubscribe` after `k` ticks
delivers the ticks `1..k`, then exactly one `complete`, no `next` ever
after it however many times the schedule would have fired, and the
repeating schedule is cleared (final state inactive — no leaked timer). -/
theorem fromInterval_unsubscribe (k m : Nat) :
    iRun ⟨0, true⟩ (List.replicate k IAct.fire
        ++ IAct.unsub :: List.replicate m IAct.fire)
      = (List.range k).map (fun i => Ev.next (i + 1)) ++ [Ev.complete]
    ∧ (iRunState ⟨0, true⟩ (List.replicate k IAct.fire
        ++ IAct.unsub :: List.replicate m IAct.fire)).active = false := by
  have hsplitRun : ∀ (s : IState) (l1 l2 : List IAct),
      iRun s (l1 ++ l2) = iRun s l1 ++ iRun (iRunState s l1) l2 := by
    intro s l1
    induction l1 generalizing s with
    | nil => intro l2; simp [iRun, iRunState]
    | cons a r ih =>
      intro l2
      simp [iRun, iRunState, ih]
  have hsplitState : ∀ (s : IState) (l1 l2 : List IAct),
      iRunState s (l1 ++ l2) = iRunState (iRunState s l1) l2 := by
    intro s l1
    induction l1 generalizing s with
    | nil => intro l2; simp [iRunState]
    | cons a r ih =>
      intro l2
      simp [iRunState, ih]
  have h1 := iRun_fires k 0
  have hunsub : iStep ⟨k, true⟩ IAct.unsub = (⟨k, false⟩, [Ev.complete]) := rfl
  constructor
  · rw [hsplitRun, h1.2, h1.1]
    simp only [Nat.zero_add, iRun, hunsub, (iRun_inactive m k).1]
    simp
  · rw [hsplitState, h1.2]
    simp only [Nat.zero_add, iRunState, hunsub, (iRun_inactive m k).2]

/-! The `unsubscribe` attribute as a single mutable slot.  Every source
factory and operator constructor ends its subscribe closure with
`<stream>.unsubscribe = () => {...}`: `fromInterval` (src/index.ts
91-102) creates a fresh interval handle via `setInterval` and assigns a
teardown capturing that invocation's observer and handle; `_map`
(116-127), `_filter` (143-154), `debounceTime` (169-190) and
`_withLatestFrom` (210-248) each assign a freshly evaluated teardown
arrow function capturing their upstream stream(s).  The host's timer
table hands out a fresh handle per `setInterval` and keeps the schedule
installed until it is cleared; every evaluation of an arrow-function
expression yields a distinct function object. -/

/-- A teardown closure installed by one subscribe invocation, identified
by the observer and interval handle it captured. -/
structure Teardown where
  observerId : Nat
  timerId : Nat
deriving DecidableEq, Repr

/-- The Stream entity as seen by the slot model: only its single mutable
`unsubscribe` attribute. -/
structure SlotStream where
  unsubscribeSlot : Option Teardown
deriving DecidableEq, Repr

/-- The host timer table: the next fresh interval handle and the handles
of schedules currently installed. -/
structure TimerWorld where
  nextTimerId : Nat
  activeTimers : List Nat
deriving DecidableEq, Repr

/-- One invocation of `fromInterval`'s subscribe closure: `setInterval`
installs a fresh repeating schedule, then the `unsubscribe` slot is
overwritten with a teardown capturing this invocation's observer and
handle. -/
def fromIntervalSubscribe (_s : SlotStream) (observerId : Nat)
    (w : TimerWorld) : SlotStream × TimerWorld :=
  let timerId := w.nextTimerId
  ( { unsubscribeSlot := some { observerId := observerId, timerId := timerId } },
    { nextTimerId := w.nextTimerId + 1,
      activeTimers := timerId :: w.activeTimers } )

/-- A host world handing out identities for newly evaluated function
objects: every evaluation of an arrow-function expression such as
`() => { ... }` yields a distinct closure object. -/
structure ClosureWorld where
  nextClosureId : Nat
deriving DecidableEq, Repr

/-- The teardown closure installed by one subscribe invocation of a
`_map`-, `_filter`- or `debounceTime`-built stream: its identity as a
function object together with the upstream stream reference the closure
captured. -/
structure OpTeardown where
  closureId : Nat
  upstreamRef : Nat
deriving DecidableEq, Repr

/-- A Stream built by `_map`, `_filter` or `debounceTime`, as seen by the
slot model: only its single mutable `unsubscribe` attribute. -/
structure OpSlotStream where
  unsubscribeSlot : Option OpTeardown
deriving DecidableEq, Repr

/-- One invocation of `_mappedStream`'s subscribe closure (src/index.ts
116-127): after wiring the upstream subscription it executes
`_mappedStream.unsubscribe = () => { if (typeof stream.unsubscribe ===
'function') stream.unsubscribe(); }`, evaluating a fresh arrow function
that captures `stream` and assigning it to the single `unsubscribe`
attribute, replacing whatever the attribute held. -/
def mapSubscribeSlot (_s : OpSlotStream) (upstreamRef : Nat)
    (w : ClosureWorld) : OpSlotStream × ClosureWorld :=
  ( { unsubscribeSlot :=
        some { closureId := w.nextClosureId, upstreamRef := upstreamRef } },
    { nextClosureId := w.nextClosureId + 1 } )

/-- One invocation of `_filteredStream`'s subscribe closure (src/index.ts
143-154): assigns a freshly evaluated teardown arrow function capturing
`stream` to the single `unsubscribe` attribute, identical in shape to
`_map`'s. -/
def filterSubscribeSlot (_s : OpSlotStream) (upstreamRef : Nat)
    (w : ClosureWorld) : OpSlotStream × ClosureWorld :=
  ( { unsubscribeSlot :=
        some { closureId := w.nextClosureId, upstreamRef := upstreamRef } },
    { nextClosureId := w.nextClosureId + 1 } )

/-- One invocation of `_debouncedStream`'s subscribe closure
(src/index.ts 169-190): assigns a freshly evaluated teardown arrow
function (capturing `stream` and the shared `_timer` slot) to the single
`unsubscribe` attribute. -/
def debounceSubscribeSlot (_s : OpSlotStream) (upstreamRef : Nat)
    (w : ClosureWorld) : OpSlotStream × ClosureWorld :=
  ( { unsubscribeSlot :=
        some { closureId := w.nextClosureId, upstreamRef := upstreamRef } },
    { nextClosureId := w.nextClosureId + 1 } )

/-- The teardown closure installed by one subscribe invocation of a
`_withLatestFrom`-built stream: its identity as a function object and
the two upstream stream references (`streamA`, `streamB`) it captured. -/
structure PairTeardown where
  closureId : Nat
  upstreamRefA : Nat
  upstreamRefB : Nat
deriving DecidableEq, Repr

/-- A Stream built by `_withLatestFrom`, as seen by the slot model. -/
structure PairSlotStream where
  unsubscribeSlot : Option PairTeardown
deriving DecidableEq, Repr

/-- One invocation of `_tupleStream`'s subscribe closure (src/index.ts
210-248): after subscribing both upstreams it executes
`_tupleStream.unsubscribe = () => {...}`, assigning a freshly evaluated
teardown arrow function capturing `streamA` and `streamB` to the single
`unsubscribe` attribute. -/
def withLatestSubscribeSlot (_s : PairSlotStream) (refA refB : Nat)
    (w : ClosureWorld) : PairSlotStream × ClosureWorld :=
  ( { unsubscribeSlot :=
        some { closureId := w.nextClosureId, upstreamRefA := refA,
               upstreamRefB := refB } },
    { nextClosureId := w.nextClosureId + 1 } )

/-- C8: for Streams built by the source factory `fromInterval` and by
each operator constructor (`_map`, `_filter`, `debounceTime`,
`_withLatestFrom`), the `unsubscribe` attribute is a single mutable slot
assigned as a side effect of `subscribe` executing: invoking `subscribe`
a second time on the same Stream instance before unsubscribing
overwrites the slot with the second invocation's teardown, so the first
invocation's teardown is no longer reachable through the Stream (for
`fromInterval`, its interval moreover stays installed with no teardown
left able to clear it). -/
theorem subscribe_overwrites_slot (s : SlotStream) (o1 o2 : Nat)
    (w : TimerWorld) (m f d : OpSlotStream) (pw : PairSlotStream)
    (u refA refB : Nat) (cw : ClosureWorld) :
    ((fromIntervalSubscribe (fromIntervalSubscribe s o1 w).1 o2
        (fromIntervalSubscribe s o1 w).2).1.unsubscribeSlot
      = some { observerId := o2, timerId := w.nextTimerId + 1 }
    ∧ (fromIntervalSubscribe (fromIntervalSubscribe s o1 w).1 o2
        (fromIntervalSubscribe s o1 w).2).1.unsubscribeSlot
      ≠ some { observerId := o1, timerId := w.nextTimerId }
    ∧ w.nextTimerId ∈ (fromIntervalSubscribe (fromIntervalSubscribe s o1 w).1
        o2 (fromIntervalSubscribe s o1 w).2).2.activeTimers)
    ∧ ((mapSubscribeSlot (mapSubscribeSlot m u cw).1 u
          (mapSubscribeSlot m u cw).2).1.unsubscribeSlot
        = some { closureId := cw.nextClosureId + 1, upstreamRef := u }
      ∧ (mapSubscribeSlot (mapSubscribeSlot m u cw).1 u
          (mapSubscribeSlot m u cw).2).1.unsubscribeSlot
        ≠ some { closureId := cw.nextClosureId, upstreamRef := u })
    ∧ ((filterSubscribeSlot (filterSubscribeSlot f u cw).1 u
          (filterSubscribeSlot f u cw).2).1.unsubscribeSlot
        = some { closureId := cw.nextClosureId + 1, upstreamRef := u }
      ∧ (filterSubscribeSlot (filterSubscribeSlot f u cw).1 u
          (filterSubscribeSlot f u cw).2).1.unsubscribeSlot
        ≠ some { closureId := cw.nextClosureId, upstreamRef := u })
    ∧ ((debounceSubscribeSlot (debounceSubscribeSlot d u cw).1 u
          (debounceSubscribeSlot d u cw).2).1.unsubscribeSlot
        = some { closureId := cw.nextClosureId + 1, upstreamRef := u }
      ∧ (debounceSubscribeSlot (debounceSubscribeSlot d u cw).1 u
          (debounceSubscribeSlot d u cw).2).1.unsubscribeSlot
        ≠ some { closureId := cw.nextClosureId, upstreamRef := u })
    ∧ ((withLatestSubscribeSlot (withLatestSubscribeSlot pw refA refB cw).1
          refA refB (withLatestSubscribeSlot pw refA refB cw).2
        ).1.unsubscribeSlot
        = some { closureId := cw.nextClosureId + 1, upstreamRefA := refA,
                 upstreamRefB := refB }
      ∧ (withLatestSubscribeSlot (withLatestSubscribeSlot pw refA refB cw).1
          refA refB (withLatestSubscribeSlot pw refA refB cw).2
        ).1.unsubscribeSlot
        ≠ some { closureId := cw.nextClosureId, upstreamRefA := refA,
                 upstreamRefB := refB }) := by
  refine ⟨⟨rfl, ?_, ?_⟩, ⟨rfl, ?_⟩, ⟨rfl, ?_⟩, ⟨rfl, ?_⟩, ⟨rfl, ?_⟩⟩
  · intro h
    simp only [fromIntervalSubscribe, Option.some.injEq] at h
    have := congrArg Teardown.timerId h
    simp at this
  · simp [fromIntervalSubscribe]
  · intro h
    simp only [mapSubscribeSlot, Option.some.injEq] at h
    have := congrArg OpTeardown.closureId h
    simp at this
  · intro h
    simp only [filterSubscribeSlot, Option.some.injEq] at h
    have := congrArg OpTeardown.closureId h
    simp at this
  · intro h
    simp only [debounceSubscribeSlot, Option.some.injEq] at h
    have := congrArg OpTeardown.closureId h
    simp at this
  · intro h
    simp only [withLatestSubscribeSlot, Option.some.injEq] at h
    have := congrArg PairTeardown.closureId h
    simp at this

/-! The adapter from a generic asynchronous pull source. -/

/-- Modelled from the spec: the source-factory adapter over a generic
asynchronous pull source (called `Stream.fromReadableStream` by the
examples) is absent from src/index.ts — only its caller appears in the
examples.  Per the spec, on subscribe it drains the source by repeatedly
requesting the next item, forwarding each obtained item to
`observer.next`, and calling `observer.complete()` once when the source
reports completion.  The pull source is embedded as the finite sequence
of items it will yield before reporting done. -/
def drainPull {α : Type} : List α → List (Ev α)
  | [] => [Ev.complete]
  | v :: r => Ev.next v :: drainPull r

/-- C2: the pull-source adapter forwards every item of the source to
`next`, in order, and delivers `complete` exactly once, after the last
item, when the source reports completion. -/
theorem fromPullSource_drains {α : Type} (items : List α) :
    drainPull items = items.map Ev.next ++ [Ev.complete]
    ∧ completeCount (drainPull items) = 1 := by
  have heq : drainPull items = items.map Ev.next ++ [Ev.complete] := by
    induction items with
    | nil => rfl
    | cons v r ih => simpa [drainPull] using ih
  refine ⟨heq, ?_⟩
  rw [heq, completeCount_append]
  have h0 : completeCount (items.map Ev.next) = 0 := by
    apply completeCount_map_next
    intro e he
    rcases List.mem_map.mp he with ⟨v, _, rfl⟩
    simp
  simp [h0, completeCount]

/-! Effects at operator-call time versus subscribe time (C9).  The
pipeline structure built by the chainable methods (src/index.ts 24-46) is
embedded as a description; the host-visible effects (timers scheduled,
listeners registered, upstream `subscribe` invocations) as a world.  Each
operator constructor's body (`_map` 114-131, `_filter` 141-158,
`debounceTime` 166-194, `_withLatestFrom` 202-252) only allocates a new
`Stream` object holding a closure — it contains no call to `subscribe`,
no `setTimeout`/`setInterval`, and no listener registration — so its
embedding threads the world through unchanged; the closures' effects are
carried by `subscribeEffect`. -/

/-- The structure of a pipeline as built by the chainable operator
methods and the source factories. -/
inductive PipeDesc where
  | interval (ms : Nat) : PipeDesc
  | timer (ms : Nat) : PipeDesc
  | event : PipeDesc
  | mapP (p : PipeDesc) : PipeDesc
  | filterP (p : PipeDesc) : PipeDesc
  | debounceP (ms : Nat) (p : PipeDesc) : PipeDesc
  | withLatestP (pa pb : PipeDesc) : PipeDesc
deriving DecidableEq, Repr

/-- Host-visible effects: timers scheduled, event listeners registered,
and `subscribe` invocations performed on upstream streams. -/
structure EffWorld where
  timersScheduled : Nat
  listenersRegistered : Nat
  upstreamSubscribes : Nat
deriving DecidableEq, Repr

/-- Calling `.map fn` (src/index.ts 28-30 delegating to `_map`, 114-131):
the body builds `new Stream((observer) => ...)` and returns it — object
allocation only, so the world passes through untouched. -/
def mapCall (p : PipeDesc) (w : EffWorld) : PipeDesc × EffWorld :=
  (PipeDesc.mapP p, w)

/-- Calling `.filter fn` (src/index.ts 32-34, `_filter` 141-158): object
allocation only. -/
def filterCall (p : PipeDesc) (w : EffWorld) : PipeDesc × EffWorld :=
  (PipeDesc.filterP p, w)

/-- Calling `.debounceTime ms` (src/index.ts 36-38, `debounceTime`
166-194): the constructor initializes the closure slot `_timer = null`
and allocates the new Stream — no timer is scheduled here. -/
def debounceCall (ms : Nat) (p : PipeDesc) (w : EffWorld) :
    PipeDesc × EffWorld :=
  (PipeDesc.debounceP ms p, w)

/-- Calling `.withLatestFrom other` (src/index.ts 44-46,
`_withLatestFrom` 202-252): the constructor initializes the closure
state and allocates the new Stream — neither upstream is subscribed
here. -/
def withLatestCall (pa pb : PipeDesc) (w : EffWorld) :
    PipeDesc × EffWorld :=
  (PipeDesc.withLatestP pa pb, w)

/-- The effects of invoking `subscribe` on a pipeline: `fromInterval` and
`fromTimer` schedule a timer, `fromEvent` registers a listener, and each
operator's subscribe closure invokes `subscribe` on its upstream
stream(s) (`_withLatestFrom` on both, A then B). -/
def subscribeEffect : PipeDesc → EffWorld → EffWorld
  | PipeDesc.interval _, w =>
      { w with timersScheduled := w.timersScheduled + 1 }
  | PipeDesc.timer _, w =>
      { w with timersScheduled := w.timersScheduled + 1 }
  | PipeDesc.event, w =>
      { w with listenersRegistered := w.listenersRegistered + 1 }
  | PipeDesc.mapP p, w =>
      subscribeEffect p
        { w with upstreamSubscribes := w.upstreamSubscribes + 1 }
  | PipeDesc.filterP p, w =>
      subscribeEffect p
        { w with upstreamSubscribes := w.upstreamSubscribes + 1 }
  | PipeDesc.debounceP _ p, w =>
      subscribeEffect p
        { w with upstreamSubscribes := w.upstreamSubscribes + 1 }
  | PipeDesc.withLatestP pa pb, w =>
      subscribeEffect pb
        { subscribeEffect pa
            { w with upstreamSubscribes := w.upstreamSubscribes + 1 } with
          upstreamSubscribes :=
            (subscribeEffect pa
              { w with upstreamSubscribes := w.upstreamSubscribes + 1 }
            ).upstreamSubscribes + 1 }

/-- C9: calling `map`, `filter`, `debounceTime`, or `withLatestFrom`
returns the new pipeline structure with the world unchanged — no upstream
`subscribe`, no timer, no listener at call time; those effects occur only
once `subscribe` runs on the result (here: a debounced interval pipeline
subscribes its upstream once and schedules the interval timer). -/
theorem operators_structural_at_call (p q : PipeDesc) (ms k : Nat)
    (w w2 : EffWorld) :
    (mapCall p w).2 = w
    ∧ (filterCall p w).2 = w
    ∧ (debounceCall ms p w).2 = w
    ∧ (withLatestCall p q w).2 = w
    ∧ (mapCall p w).1 = PipeDesc.mapP p
    ∧ (subscribeEffect (debounceCall ms (PipeDesc.interval k) w).1
        w2).upstreamSubscribes = w2.upstreamSubscribes + 1
    ∧ (subscribeEffect (debounceCall ms (PipeDesc.interval k) w).1
        w2).timersScheduled = w2.timersScheduled + 1 := by
  refine ⟨rfl, rfl, rfl, rfl, rfl, ?_, ?_⟩ <;>
    simp [debounceCall, subscribeEffect]

/-! Teardown behavior of the operator-built streams (C10).  The
`unsubscribe` closures installed by `_map` (122-126), `_filter`
(149-153) and `debounceTime` (184-189) are embedded statement by
statement as the sequence of primitive actions they perform. -/

/-- A primitive action a teardown can perform: deliver `next`/`complete`
to the downstream observer, clear a pending timer, or invoke the
upstream stream's `unsubscribe`. -/
inductive TAct (α : Type) where
  | emitNext (v : α) : TAct α
  | emitComplete : TAct α
  | cancelTimer : TAct α
  | invokeUpstream : TAct α
deriving DecidableEq, Repr

/-- The teardown installed by `_map`'s subscribe (src/index.ts 122-126):
`if (typeof stream.unsubscribe === 'function') stream.unsubscribe();`
and nothing else. -/
def mapTeardown (α : Type) (upstreamHasTeardown : Bool) : List (TAct α) :=
  if upstreamHasTeardown then [TAct.invokeUpstream] else []

/-- The teardown installed by `_filter`'s subscribe (src/index.ts
149-153): identical in shape to `_map`'s. -/
def filterTeardown (α : Type) (upstreamHasTeardown : Bool) : List (TAct α) :=
  if upstreamHasTeardown then [TAct.invokeUpstream] else []

/-- The teardown installed by `debounceTime`'s subscribe (src/index.ts
184-189): `if (_timer) window.clearTimeout(_timer);` then the same
guarded upstream delegation. -/
def debounceTeardown (α : Type) (pendingTimer upstreamHasTeardown : Bool) :
    List (TAct α) :=
  (if pendingTimer then [TAct.cancelTimer] else [])
    ++ (if upstreamHasTeardown then [TAct.invokeUpstream] else [])

/-- The teardown installed by `fromInterval`'s subscribe (src/index.ts
98-101): `observer.complete(); clearInterval(_timer);` — the source
factory's teardown is what emits `complete`. -/
def intervalTeardownActs : List (TAct Nat) :=
  [TAct.emitComplete, TAct.cancelTimer]

/-- C10: the teardowns of `map`, `filter` and `debounceTime` never call
the downstream observer (`complete` or `next`) directly; they invoke the
upstream teardown exactly when the upstream has one set, `debounceTime`'s
additionally cancels the pending timer exactly when one is pending, and
with no upstream teardown the `map`/`filter` teardowns do nothing at all
— a `complete` delivered on unsubscription can only come from a source
factory's teardown, such as `fromInterval`'s. -/
theorem operator_teardown_silent (α : Type) (p u : Bool) :
    TAct.emitComplete ∉ mapTeardown α u
    ∧ TAct.emitComplete ∉ filterTeardown α u
    ∧ TAct.emitComplete ∉ debounceTeardown α p u
    ∧ (∀ v : α, TAct.emitNext v ∉ mapTeardown α u
        ∧ TAct.emitNext v ∉ filterTeardown α u
        ∧ TAct.emitNext v ∉ debounceTeardown α p u)
    ∧ (TAct.invokeUpstream ∈ mapTeardown α u ↔ u = true)
    ∧ (TAct.invokeUpstream ∈ filterTeardown α u ↔ u = true)
    ∧ (TAct.invokeUpstream ∈ debounceTeardown α p u ↔ u = true)
    ∧ (TAct.cancelTimer ∈ debounceTeardown α p u ↔ p = true)
    ∧ mapTeardown α false = []
    ∧ filterTeardown α false = []
    ∧ TAct.emitComplete ∈ intervalTeardownActs := by
  cases p <;> cases u <;>
    simp [mapTeardown, filterTeardown, debounceTeardown, intervalTeardownActs]

end Rex
